import Mathlib

/-!
Verification development for the `mikes-ollama-code` terminal chat client.

JavaScript strings are embedded as `List Char` (the markers and entities
involved are ASCII, so UTF-16 subtleties do not arise).  Each definition
translates one function of the source script; recursion that is not
structural in JavaScript is made total with an explicit fuel argument that
strictly exceeds any depth reachable on the inputs considered here.
-/

set_option maxRecDepth 10000

abbrev Str := List Char

/-- The double-quote character, written numerically to keep string literals
simple. -/
def quoteChar : Char := Char.ofNat 34

/-- The apostrophe character. -/
def aposChar : Char := Char.ofNat 39

/-- First occurrence of `pat` in a string: returns the text before the
occurrence and the text after it, or `none` when `pat` (assumed nonempty)
does not occur.  `String.prototype.split(pat)` in the source is only ever
used through `parts[0]` and `parts.slice(1).join(pat)`, which are exactly
the two components returned here. -/
def splitFirst (pat : Str) : Str → Option (Str × Str)
  | [] => none
  | c :: rest =>
    if pat.isPrefixOf (c :: rest) then some ([], (c :: rest).drop pat.length)
    else
      match splitFirst pat rest with
      | some (pre, post) => some (c :: pre, post)
      | none => none

/-- `String.prototype.includes(pat)` for a nonempty `pat`. -/
def hasSub (pat s : Str) : Bool := (splitFirst pat s).isSome

/-- Fuelled global replace: leftmost, non-overlapping, left-to-right, the
semantics of JavaScript `text.replace(/pat/g, repl)` for a literal pattern.
Fuel `s.length` always suffices because every step consumes at least one
character. -/
def replaceAllF (pat repl : Str) : Nat → Str → Str
  | 0, s => s
  | _ + 1, [] => []
  | f + 1, c :: rest =>
    if pat ≠ [] ∧ pat.isPrefixOf (c :: rest) then
      repl ++ replaceAllF pat repl f ((c :: rest).drop pat.length)
    else
      c :: replaceAllF pat repl f rest

/-- `text.replace(/pat/g, repl)` for a literal nonempty pattern. -/
def replaceAll (pat repl s : Str) : Str := replaceAllF pat repl s.length s

/-- `unescapeXml` (source lines 1352-1372): the six global replacements in
source order, `&amp;` last.  The source's `typeof` guard and debug logging
do not affect the returned string and are omitted. -/
def unescapeXml (s : Str) : Str :=
  replaceAll "&amp;".data "&".data
    (replaceAll "&#39;".data [aposChar]
      (replaceAll "&apos;".data [aposChar]
        (replaceAll "&quot;".data [quoteChar]
          (replaceAll "&gt;".data ">".data
            (replaceAll "&lt;".data "<".data s)))))

/-- The alternation `&(?:lt|gt|amp|quot|apos|#39);` of `validateXmlContent`:
true when any recognized entity occurs in the text. -/
def xmlEntityPresent (s : Str) : Bool :=
  hasSub "&lt;".data s || hasSub "&gt;".data s || hasSub "&amp;".data s ||
  hasSub "&quot;".data s || hasSub "&apos;".data s || hasSub "&#39;".data s

/-- `validateXmlContent` (source lines 1375-1399), returning the
`unescapedChars` list it builds; the source prints a warning and returns
`false` exactly when this list is nonempty, and its caller ignores the
returned boolean, so the check never blocks processing. -/
def validateXmlContent (content : Str) : List Char :=
  (if hasSub "<".data content ∧ ¬ hasSub "&lt;".data content then ['<'] else []) ++
  (if hasSub ">".data content ∧ ¬ hasSub "&gt;".data content then ['>'] else []) ++
  (if hasSub "&".data content ∧ ¬ (xmlEntityPresent content = true) then ['&'] else [])

/-! ## Stream Segmenter -/

/-- The opening thinking marker `<think>`. -/
def openThink : Str := "<think>".data

/-- The closing thinking marker. -/
def closeThink : Str := "</think>".data

/-- The opening function-call marker. -/
def openFn : Str := "<function_calls>".data

/-- The closing function-call marker. -/
def closeFn : Str := "</function_calls>".data

/-- The `this.streamState` object of `processStreamContent` (source lines
1803-1811) together with the three downstream sinks.  `plainOut` is the
concatenation of every string passed to `formatLLMResponse`, `thinkOut` the
concatenation of every string passed to `formatLLMThinkingInline`, and
`fnBlocksOut` the list of strings passed to `formatFunctionCall`; the
formatters only wrap their argument in ANSI color codes and box drawing, so
the argument itself is the sink content. -/
structure SegState where
  isInThinkingTag : Bool
  thinkingContent : Str
  isInFunctionCall : Bool
  functionCallContent : Str
  regularContent : Str
  plainOut : Str
  thinkOut : Str
  fnBlocksOut : List Str
deriving DecidableEq, Repr

/-- The freshly created stream state (all fields empty, source lines
1804-1810), with empty sinks. -/
def initSegState : SegState :=
  ⟨false, [], false, [], [], [], [], []⟩

/-- `processStreamContent(content)` (source lines 1801-1924), translated
line by line.  The source recurses on the text following a consumed marker;
`fuel` bounds that recursion depth (the JavaScript recursion strictly
shrinks the re-fed text, and every run in this file stays far below the
fuel supplied to it, so the fuel-exhausted branch is never taken). -/
def processStreamContent (fuel : Nat) (st : SegState) (content : Str) : SegState :=
  match fuel with
  | 0 => st
  | f + 1 =>
    -- line 1814: this.streamState.regularContent += content
    let st := { st with regularContent := st.regularContent ++ content }
    -- lines 1817-1838: Plain -> Thinking transition
    if st.isInThinkingTag = false ∧ hasSub openThink st.regularContent then
      match splitFirst openThink st.regularContent with
      | some (beforeThink, afterThink) =>
        let st :=
          if beforeThink ≠ [] then { st with plainOut := st.plainOut ++ beforeThink } else st
        let st := { st with isInThinkingTag := true, regularContent := [] }
        if afterThink ≠ [] then processStreamContent f st afterThink else st
      | none => st
    else if st.isInThinkingTag then
      -- lines 1840-1869: inside a thinking region.  NOTE: the closing
      -- marker is searched in the current chunk only, as in the source
      -- (line 1842 tests `content`, not the accumulated buffer).
      if hasSub closeThink content then
        match splitFirst closeThink content with
        | some (thinkingPart, afterThinking) =>
          let st :=
            if thinkingPart ≠ [] then { st with thinkOut := st.thinkOut ++ thinkingPart } else st
          let st := { st with isInThinkingTag := false }
          if afterThinking ≠ [] then
            processStreamContent f { st with regularContent := [] } afterThinking
          else st
        | none => st
      else { st with thinkOut := st.thinkOut ++ content }
    else
      -- lines 1872-1887: Plain -> FunctionCall transition (no early return)
      let st :=
        if st.isInFunctionCall = false ∧ hasSub openFn st.regularContent then
          match splitFirst openFn st.regularContent with
          | some (beforeFn, afterFn) =>
            let st :=
              if beforeFn ≠ [] then { st with plainOut := st.plainOut ++ beforeFn } else st
            { st with isInFunctionCall := true,
                      functionCallContent := openFn ++ afterFn,
                      regularContent := [] }
          | none => st
        else st
      if st.isInFunctionCall then
        -- lines 1889-1915: note the source appends the whole chunk again
        -- (line 1891) even when the transition above already consumed it.
        let st := { st with functionCallContent := st.functionCallContent ++ content }
        if hasSub closeFn st.functionCallContent then
          match splitFirst closeFn st.functionCallContent with
          | some (fnPart, afterFn) =>
            let st := { st with fnBlocksOut := st.fnBlocksOut ++ [fnPart ++ closeFn] }
            let st := { st with isInFunctionCall := false, functionCallContent := [],
                                regularContent := afterFn }
            if afterFn ≠ [] then
              processStreamContent f { st with regularContent := [] } afterFn
            else st
          | none => st
        else st
      else
        -- lines 1918-1923: flush plain content
        if st.regularContent ≠ [] then
          let st :=
            if ¬ hasSub openFn st.regularContent ∧ ¬ hasSub closeFn st.regularContent then
              { st with plainOut := st.plainOut ++ st.regularContent }
            else st
          { st with regularContent := [] }
        else st

/-- Feed a list of chunks through the segmenter in arrival order. -/
def feedChunks (fuel : Nat) (st : SegState) : List Str → SegState
  | [] => st
  | c :: cs => feedChunks fuel (processStreamContent fuel st c) cs

/-- Run a whole stream from the initial state with ample fuel. -/
def runSegmenter (chunks : List Str) : SegState := feedChunks 64 initSegState chunks

/-! ## Function-Call Extractor -/

/-- Whitespace as treated by an XML parser. -/
def isWsChar (c : Char) : Bool := c = ' ' ∨ c = '\n' ∨ c = '\t' ∨ c = '\r'

/-- Drop leading whitespace. -/
def skipWs : Str → Str
  | [] => []
  | c :: rest => if isWsChar c then skipWs rest else c :: rest

/-- Remove `pat` from the front of `s`, or fail. -/
def stripPfx (pat s : Str) : Option Str :=
  if pat.isPrefixOf s then some (s.drop pat.length) else none

/-- One parsed `parameter` element: its `name` attribute (when present and
how xml2js exposes it as `param.$.name`) and its text content
(`param._`, the empty string when the element is empty). -/
structure RawParam where
  name : Option Str
  text : Str
deriving DecidableEq, Repr

/-- One parsed `invoke` element: its `name` attribute (`invoke.$.name`) and
its `parameter` children in document order (`invoke.parameter`, normalized
to a list as the source does with `Array.isArray`). -/
structure RawInvoke where
  name : Option Str
  params : List RawParam
deriving DecidableEq, Repr

/-- First attribute value for a key, as property lookup on the `$` object. -/
def lookupAttr : List (Str × Str) → Str → Option Str
  | [], _ => none
  | (k', v') :: rest, k => if k' = k then some v' else lookupAttr rest k

/-- Characters allowed inside an attribute key. -/
def attrKeyChar (c : Char) : Bool :=
  ¬ (isWsChar c = true ∨ c = '=' ∨ c = '>' ∨ c = '/' ∨ c = quoteChar)

/-- Modelled from the spec: the repository delegates XML parsing to the
external `xml2js` library, whose code is not among the sources; spec §4.2
says the extractor must "parse the block as a structured document, treating
each invocation element's `name` attribute as the call name and each nested
parameter element's `name` attribute plus text content as one key/value
pair", failing on malformed documents.  `parseAttr` reads one
`key="value"` attribute. -/
def parseAttr (s : Str) : Option ((Str × Str) × Str) :=
  let s' := skipWs s
  let key := s'.takeWhile attrKeyChar
  let rest := s'.dropWhile attrKeyChar
  if key = [] then none
  else
    match rest with
    | c :: d :: rest' =>
      if c = '=' ∧ d = quoteChar then
        let v := rest'.takeWhile (fun ch => ¬ ch = quoteChar)
        match rest'.dropWhile (fun ch => ¬ ch = quoteChar) with
        | _ :: tail => some ((key, v), tail)
        | [] => none
      else none
    | _ => none

/-- Modelled from the spec (see `parseAttr`): the attribute list of one
element up to `>` (or `/>`, reported by the boolean). -/
def parseAttrs : Nat → Str → Option (List (Str × Str) × Bool × Str)
  | 0, _ => none
  | f + 1, s =>
    match skipWs s with
    | '>' :: rest => some ([], false, rest)
    | '/' :: '>' :: rest => some ([], true, rest)
    | s' =>
      match parseAttr s' with
      | some (kv, rest) =>
        match parseAttrs f rest with
        | some (kvs, sc, rest') => some (kv :: kvs, sc, rest')
        | none => none
      | none => none

/-- After a recognized tag name, the next character must end the name. -/
def tagBoundary : Str → Bool
  | [] => false
  | c :: _ => isWsChar c || c = '>' || c = '/'

/-- Modelled from the spec (see `parseAttr`): the `parameter` children of an
`invoke` element, up to the closing `</invoke>`; any other structure is
malformed and fails, as an XML parser would. -/
def parseParams : Nat → Str → Option (List RawParam × Str)
  | 0, _ => none
  | f + 1, s =>
    let s' := skipWs s
    match stripPfx "</invoke>".data s' with
    | some rest => some ([], rest)
    | none =>
      match stripPfx "<parameter".data s' with
      | some rest =>
        if tagBoundary rest then
          match parseAttrs f rest with
          | some (attrs, selfClosed, rest') =>
            if selfClosed then
              match parseParams f rest' with
              | some (ps, r) => some (⟨lookupAttr attrs "name".data, []⟩ :: ps, r)
              | none => none
            else
              let txt := rest'.takeWhile (fun ch => ¬ ch = '<')
              match stripPfx "</parameter>".data (rest'.dropWhile (fun ch => ¬ ch = '<')) with
              | some rest3 =>
                match parseParams f rest3 with
                | some (ps, r) => some (⟨lookupAttr attrs "name".data, txt⟩ :: ps, r)
                | none => none
              | none => none
          | none => none
        else none
      | none => none

/-- Modelled from the spec (see `parseAttr`): the `invoke` elements of one
function-call block body, in document order; `none` is the `MalformedBlock`
outcome (xml2js reporting `err` to the callback at source line 1411). -/
def parseInvokes : Nat → Str → Option (List RawInvoke)
  | 0, _ => none
  | f + 1, s =>
    match skipWs s with
    | [] => some []
    | s' =>
      match stripPfx "<invoke".data s' with
      | some rest =>
        if tagBoundary rest then
          match parseAttrs f rest with
          | some (attrs, selfClosed, rest') =>
            if selfClosed then
              match parseInvokes f rest' with
              | some invs => some (⟨lookupAttr attrs "name".data, []⟩ :: invs)
              | none => none
            else
              match parseParams f rest' with
              | some (ps, rest'') =>
                match parseInvokes f rest'' with
                | some invs => some (⟨lookupAttr attrs "name".data, ps⟩ :: invs)
                | none => none
              | none => none
          | none => none
        else none
      | none => none

/-- An extracted typed tool invocation (source lines 1430-1433). -/
structure FunctionCall where
  name : Str
  parameters : List (Str × Str)
deriving DecidableEq, Repr

/-- JavaScript object assignment `params[k] = v`: overwrite the value of an
existing key in place, otherwise append the pair. -/
def setParam : List (Str × Str) → Str → Str → List (Str × Str)
  | [], k, v => [(k, v)]
  | (k', v') :: rest, k, v =>
    if k' = k then (k, v) :: rest else (k', v') :: setParam rest k v

/-- JavaScript property read `params[k]`. -/
def getParam : List (Str × Str) → Str → Option Str
  | [], _ => none
  | (k', v') :: rest, k => if k' = k then some v' else getParam rest k

/-- One iteration of the parameter loop of `extractFunctionCalls` (source
lines 1418-1428): parameters without a truthy `name` attribute are skipped,
the raw content defaults to the empty string and is unescaped before being
stored; the side-effect-only `validateXmlContent` call does not change the
result. -/
def buildParamsStep (m : List (Str × Str)) (p : RawParam) : List (Str × Str) :=
  match p.name with
  | some n => if n ≠ [] then setParam m n (unescapeXml p.text) else m
  | none => m

/-- The `params` object after the whole parameter loop. -/
def buildParams (ps : List RawParam) : List (Str × Str) :=
  ps.foldl buildParamsStep []

/-- The invoke guard of `extractFunctionCalls` (source line 1415): an invoke
is turned into a call only when `invoke.$.name` is truthy AND
`invoke.parameter` is present, i.e. there is at least one parameter child. -/
def invokeToCall (inv : RawInvoke) : Option FunctionCall :=
  match inv.name with
  | some n => if n ≠ [] ∧ inv.params ≠ [] then some ⟨n, buildParams inv.params⟩ else none
  | none => none

/-- The calls contributed by one closed block body: none at all when the
body is malformed (source lines 1409-1441, the `err` and catch paths). -/
def extractBlockCalls (body : Str) : List FunctionCall :=
  match parseInvokes (body.length + 1) body with
  | some invs => invs.filterMap invokeToCall
  | none => []

/-- The matches of the global lazy regex
`/<function_calls>([\s\S]*?)<\/function_calls>/g` (source line 1403): the
captured body of each block, scanning left to right. -/
def fcBlocks : Nat → Str → List Str
  | 0, _ => []
  | f + 1, s =>
    match splitFirst openFn s with
    | none => []
    | some (_, afterOpen) =>
      match splitFirst closeFn afterOpen with
      | none => []
      | some (body, rest) => body :: fcBlocks f rest

/-- `extractFunctionCalls(text)` (source lines 1402-1445). -/
def extractFunctionCalls (text : Str) : List FunctionCall :=
  (fcBlocks (text.length + 1) text).foldl (fun calls body => calls ++ extractBlockCalls body) []

/-! ## Background Process Registry -/

/-- One record of `this.backgroundProcesses` (source lines 1488-1496).
`startTime`/`endTime` are wall-clock timestamps and are not modelled. -/
structure BackgroundProcess where
  command : Str
  explanation : Str
  stdout : Str
  stderr : Str
  isRunning : Bool
  exitCode : Option Int
deriving DecidableEq, Repr

/-- The registry state owned by `OllamaChat`: the id counter and the map,
as an insertion-ordered association list (JavaScript `Map`). -/
structure Registry where
  nextProcessId : Nat
  backgroundProcesses : List (Nat × BackgroundProcess)
deriving DecidableEq, Repr

/-- Constructor state (source lines 990-991): empty map, counter at 1. -/
def initialRegistry : Registry := ⟨1, []⟩

/-- The background branch of `runInTerminal` (source lines 1485-1522):
allocate `this.nextProcessId++`, store a fresh running record with empty
output, return the id.  The asynchronous spawn and output callbacks mutate
the stored record later and do not touch the counter. -/
def startBackground (r : Registry) (command explanation : Str) : Nat × Registry :=
  let processId := r.nextProcessId
  (processId,
    { nextProcessId := r.nextProcessId + 1,
      backgroundProcesses :=
        r.backgroundProcesses ++ [(processId, ⟨command, explanation, [], [], true, none⟩)] })

/-- A sequence of background starts, returning the ids in call order. -/
def startMany (r : Registry) : List (Str × Str) → List Nat × Registry
  | [] => ([], r)
  | (c, e) :: rest =>
    let p := startBackground r c e
    let q := startMany p.2 rest
    (p.1 :: q.1, q.2)

/-! ## Tool Dispatcher -/

/-- JavaScript `o || d` on a possibly-absent string: the default is taken
for `undefined` and for the empty string. -/
def jsOr (o : Option Str) (d : Str) : Str :=
  match o with
  | some v => if v = [] then d else v
  | none => d

/-- Accumulate leading decimal digits. -/
def digitsVal : Str → Nat → Nat
  | [], acc => acc
  | c :: rest, acc =>
    if '0' ≤ c ∧ c ≤ '9' then digitsVal rest (acc * 10 + (c.toNat - 48)) else acc

/-- The leading digit run of a string, `none` when it starts with none. -/
def leadDigits : Str → Option Nat
  | [] => none
  | c :: rest =>
    if '0' ≤ c ∧ c ≤ '9' then some (digitsVal (c :: rest) 0) else none

/-- JavaScript `parseInt(s)` in base 10 for the dispatcher's parameters:
optional sign and leading digits, trailing garbage ignored, `none` = NaN. -/
def parseIntJS (s : Str) : Option Int :=
  match skipWs s with
  | '-' :: rest => (leadDigits rest).map (fun n => -(n : Int))
  | '+' :: rest => (leadDigits rest).map (fun n => (n : Int))
  | s' => (leadDigits s').map (fun n => (n : Int))

/-- JavaScript `x ? parseInt(x) : d` (source lines 1767, 1774). -/
def jsTernaryInt (o : Option Str) (d : Int) : Option Int :=
  match o with
  | some v => if v = [] then some d else parseIntJS v
  | none => some d

/-- JavaScript `x ? parseInt(x) : null` (source lines 1779-1780); the outer
`none` is `null`. -/
def jsTernaryNullable (o : Option Str) : Option (Option Int) :=
  match o with
  | some v => if v = [] then none else some (parseIntJS v)
  | none => none

/-- The tool implementations the dispatcher calls (spec §6 collaborator
interfaces).  They perform I/O in the source; here each is an arbitrary
function from the exact argument values the dispatcher computes to the
result text it returns. -/
structure ToolEnv where
  runInTerminal : Option Str → Str → Bool → Str
  getTerminalOutput : Option Str → Str
  listDir : Option Str → Str
  fileSearch : Option Str → Option Int → Str
  grepSearch : Option Str → Bool → Str → Option Int → Str
  readFile : Option Str → Option (Option Int) → Option (Option Int) → Str
  createFile : Option Str → Str → Str
  replaceStringInFile : Option Str → Option Str → Option Str → Str

/-- The result-block wrapper appended for every executed call
(`\n<function_results>\n` … `\n</function_results>\n`). -/
def wrapResult (r : Str) : Str :=
  "\n<function_results>\n".data ++ r ++ "\n</function_results>\n".data

/-- The fixed dispatch table. -/
def knownToolNames : List Str :=
  ["run_in_terminal".data, "get_terminal_output".data, "list_dir".data,
   "file_search".data, "grep_search".data, "read_file".data,
   "create_file".data, "replace_string_in_file".data]

/-- One iteration of the dispatch loop of `processFunctionCalls` (source
lines 1749-1795): the if/else chain on `call.name`, each branch reading its
parameters with the source's defaults and appending one wrapped result
block; a name matching no branch contributes nothing. -/
def dispatchCall (env : ToolEnv) (call : FunctionCall) : Str :=
  if call.name = "run_in_terminal".data then
    wrapResult (env.runInTerminal (getParam call.parameters "command".data)
      (jsOr (getParam call.parameters "explanation".data) "Running command".data)
      (getParam call.parameters "isBackground".data = some "true".data))
  else if call.name = "get_terminal_output".data then
    wrapResult (env.getTerminalOutput (getParam call.parameters "id".data))
  else if call.name = "list_dir".data then
    wrapResult (env.listDir (getParam call.parameters "path".data))
  else if call.name = "file_search".data then
    wrapResult (env.fileSearch (getParam call.parameters "query".data)
      (jsTernaryInt (getParam call.parameters "maxResults".data) 50))
  else if call.name = "grep_search".data then
    wrapResult (env.grepSearch (getParam call.parameters "query".data)
      (getParam call.parameters "isRegexp".data = some "true".data)
      (jsOr (getParam call.parameters "includePattern".data) "**/*".data)
      (jsTernaryInt (getParam call.parameters "maxResults".data) 50))
  else if call.name = "read_file".data then
    wrapResult (env.readFile (getParam call.parameters "filePath".data)
      (jsTernaryNullable (getParam call.parameters "offset".data))
      (jsTernaryNullable (getParam call.parameters "limit".data)))
  else if call.name = "create_file".data then
    wrapResult (env.createFile (getParam call.parameters "filePath".data)
      (jsOr (getParam call.parameters "content".data) []))
  else if call.name = "replace_string_in_file".data then
    wrapResult (env.replaceStringInFile (getParam call.parameters "filePath".data)
      (getParam call.parameters "oldString".data)
      (getParam call.parameters "newString".data))
  else []

/-- `processFunctionCalls(responseText)` (source lines 1745-1798): extract,
then dispatch strictly in document order, concatenating result blocks. -/
def processFunctionCalls (env : ToolEnv) (responseText : Str) : Str :=
  (extractFunctionCalls responseText).foldl
    (fun results call => results ++ dispatchCall env call) []

/-! ## Concrete inputs used by the claims -/

/-- A function-call block whose single invoke has a name but no parameter
elements. -/
def nameOnlyBlock : Str :=
  "<function_calls>\n<invoke name=\"run_in_terminal\">\n</invoke>\n</function_calls>".data

/-- A block with a parameterless invoke followed by a normal invoke. -/
def mixedBlock : Str :=
  "<function_calls>\n<invoke name=\"run_in_terminal\">\n</invoke>\n<invoke name=\"list_dir\">\n<parameter name=\"path\">src</parameter>\n</invoke>\n</function_calls>".data

/-- The malformed function-call stream of C7, chunked. -/
def malformedStream : List Str :=
  ["Before".data, "<function_calls>".data,
   "\n<invoke name=\"run_in_terminal\">\n".data, "</function_calls>After".data]

/-- The same malformed stream as one text. -/
def malformedText : Str :=
  "Before<function_calls>\n<invoke name=\"run_in_terminal\">\n</function_calls>After".data

/-- Tool implementations that all return the empty string, for witnesses. -/
def trivialToolEnv : ToolEnv :=
  ⟨fun _ _ _ => [], fun _ => [], fun _ => [], fun _ _ => [], fun _ _ _ _ => [],
   fun _ _ _ => [], fun _ _ => [], fun _ _ _ => []⟩

/-- A block whose only invocation carries an unrecognized tool name. -/
def unknownOnlyBlock : Str :=
  "<function_calls>\n<invoke name=\"future_tool\">\n<parameter name=\"x\">1</parameter>\n</invoke>\n</function_calls>".data

/-- A block in which one invoke repeats the `filePath` parameter name. -/
def dupParamBlock : Str :=
  "<function_calls>\n<invoke name=\"create_file\">\n<parameter name=\"filePath\">a.txt</parameter>\n<parameter name=\"filePath\">b.txt</parameter>\n</invoke>\n</function_calls>".data

/-! ## Entity round-trip encoders (C4) -/

/-- The claim's reference XML escape: each of the five reserved characters
becomes its standard entity, every other character is untouched. -/
def escChar (c : Char) : Str :=
  if c = '&' then "&amp;".data
  else if c = '<' then "&lt;".data
  else if c = '>' then "&gt;".data
  else if c = quoteChar then "&quot;".data
  else if c = aposChar then "&apos;".data
  else [c]

/-- Concatenation of a character-wise encoding over a string. -/
def mapConcat (f : Char → Str) : Str → Str
  | [] => []
  | c :: s => f c ++ mapConcat f s

/-- The reference escape of a whole string. -/
def escapeXml (s : Str) : Str := mapConcat escChar s

/-- The encoding of an escaped string after the `&lt;` pass. -/
def escChar1 (c : Char) : Str :=
  if c = '&' then "&amp;".data
  else if c = '>' then "&gt;".data
  else if c = quoteChar then "&quot;".data
  else if c = aposChar then "&apos;".data
  else [c]

/-- The encoding after the `&gt;` pass. -/
def escChar2 (c : Char) : Str :=
  if c = '&' then "&amp;".data
  else if c = quoteChar then "&quot;".data
  else if c = aposChar then "&apos;".data
  else [c]

/-- The encoding after the `&quot;` pass. -/
def escChar3 (c : Char) : Str :=
  if c = '&' then "&amp;".data
  else if c = aposChar then "&apos;".data
  else [c]

/-- The encoding after the `&apos;` pass (unchanged by the `&#39;` pass). -/
def escChar4 (c : Char) : Str :=
  if c = '&' then "&amp;".data else [c]

/-- No occurrence of `pat` can begin inside `w`, whatever follows `w`:
every nonempty suffix of `w` disagrees with `pat` within their common
length. -/
def cannotStartIn (pat w : Str) : Bool :=
  w.tails.all fun w' => w'.isEmpty || (!pat.isPrefixOf w' && !w'.isPrefixOf pat)

/-! ## Supporting lemmas -/

/-- A single-character search is exactly membership. -/
theorem hasSub_singleton (c : Char) (s : Str) : hasSub [c] s = true ↔ c ∈ s := by
  induction s with
  | nil => simp [hasSub, splitFirst]
  | cons d rest ih =>
    by_cases h : [c].isPrefixOf (d :: rest) = true
    · have hcd : c = d := by
        have := List.isPrefixOf_iff_prefix.mp h
        obtain ⟨t, ht⟩ := this
        exact (List.cons.injEq .. ▸ ht).1
      simp [hasSub, splitFirst, h, hcd]
    · have hcd : c ≠ d := by
        intro he
        exact h (by simp [List.isPrefixOf, he])
      simp only [hasSub, splitFirst, if_neg h]
      rcases h' : splitFirst [c] rest with _ | pr
      · simp only [hasSub, h'] at ih
        simp [List.mem_cons, hcd, ← ih]
      · simp only [hasSub, h'] at ih
        simp [List.mem_cons, ← ih]

/-! ## Claim theorems -/

/-- Claim C1 — code bug.  Chunk-boundary invariance fails on the code: the
closing thinking marker is searched per chunk (source line 1842) and a
partial marker sitting alone in the plain buffer is flushed as plain text
(source lines 1918-1923), so the reference text `<think>A</think>B` fed
whole sends `A` to the thinking sink and `B` to the plain sink, while the
same text split mid-marker as `<thi` / `nk>A</think>B` sends everything to
the plain sink and nothing to the thinking sink. -/
theorem claim1_chunk_invariance_fails :
    ("<thi".data ++ "nk>A</think>B".data = "<think>A</think>B".data) ∧
    (runSegmenter ["<think>A</think>B".data]).thinkOut = "A".data ∧
    (runSegmenter ["<think>A</think>B".data]).plainOut = "B".data ∧
    (runSegmenter ["<thi".data, "nk>A</think>B".data]).thinkOut = [] ∧
    (runSegmenter ["<thi".data, "nk>A</think>B".data]).plainOut = "<think>A</think>B".data ∧
    ¬ ((runSegmenter ["<think>A</think>B".data]).thinkOut =
         (runSegmenter ["<thi".data, "nk>A</think>B".data]).thinkOut ∧
       (runSegmenter ["<think>A</think>B".data]).plainOut =
         (runSegmenter ["<thi".data, "nk>A</think>B".data]).plainOut ∧
       (runSegmenter ["<think>A</think>B".data]).fnBlocksOut =
         (runSegmenter ["<thi".data, "nk>A</think>B".data]).fnBlocksOut) := by
  decide

/-- Claim C5 — confirmed.  Scenario A: chunks `<think>Hel` then
`lo</think>World` put exactly `Hello` in the thinking sink and exactly
`World` in the plain sink (and no function-call block is produced). -/
theorem claim5_scenario_a :
    (runSegmenter ["<think>Hel".data, "lo</think>World".data]).thinkOut = "Hello".data ∧
    (runSegmenter ["<think>Hel".data, "lo</think>World".data]).plainOut = "World".data ∧
    (runSegmenter ["<think>Hel".data, "lo</think>World".data]).fnBlocksOut = [] := by
  decide

/-- Claim C3 — confirmed.  The replacement order of `unescapeXml` (with
`&amp;` last) makes the doubly-escaped `&amp;lt;` unescape to `&lt;` and
not to `<`, and Scenario D's `a &amp;&lt;b&gt;` unescape to `a &<b>`. -/
theorem claim3_unescape_order :
    unescapeXml "a &amp;&lt;b&gt;".data = "a &<b>".data ∧
    unescapeXml "&amp;lt;".data = "&lt;".data ∧
    unescapeXml "&amp;lt;".data ≠ "<".data := by
  decide

/-- Claim C2 — counterexample.  For a block whose invoke has a name but no
parameter elements the extractor produces no call at all (the guard at
source line 1415 requires `invoke.parameter` to be truthy), contradicting
the claim that it yields a `FunctionCall` with an empty parameter map. -/
theorem claim2_counterexample :
    extractFunctionCalls nameOnlyBlock = [] ∧
    extractFunctionCalls nameOnlyBlock ≠ [⟨"run_in_terminal".data, []⟩] := by
  decide

/-- Claim C2 — amended.  An invocation with a name but no parameter
elements is silently skipped (zero calls, no error): the extractor requires
at least one parameter element; other invokes in the same block are still
extracted. -/
theorem claim2_amended :
    extractFunctionCalls nameOnlyBlock = [] ∧
    extractFunctionCalls mixedBlock = [⟨"list_dir".data, [("path".data, "src".data)]⟩] := by
  decide

/-- Claim C9 — counterexample.  `validateXmlContent` does not flag a
literal `<` whenever the entity `&lt;` also occurs somewhere in the same
text (source line 1380), contradicting the claim's "regardless of whether
escaped entities also appear elsewhere". -/
theorem claim9_counterexample :
    '<' ∈ "&lt;<".data ∧ validateXmlContent "&lt;<".data = [] := by
  decide

/-- Claim C9 — amended.  `validateXmlContent` flags a literal `<` exactly
when the text contains `<` and no occurrence of `&lt;`; flags `>` exactly
when it contains `>` and no `&gt;`; and flags `&` exactly when it contains
`&` and none of the six recognized entities occurs anywhere in the text.
The result is only ever used for console warnings, never to block
extraction. -/
theorem claim9_amended (s : Str) :
    ('<' ∈ validateXmlContent s ↔ ('<' ∈ s ∧ ¬ (hasSub "&lt;".data s = true))) ∧
    ('>' ∈ validateXmlContent s ↔ ('>' ∈ s ∧ ¬ (hasSub "&gt;".data s = true))) ∧
    ('&' ∈ validateXmlContent s ↔ ('&' ∈ s ∧ ¬ (xmlEntityPresent s = true))) := by
  have h1 : ("<".data : Str) = ['<'] := rfl
  have h2 : (">".data : Str) = ['>'] := rfl
  have h3 : ("&".data : Str) = ['&'] := rfl
  unfold validateXmlContent
  rw [h1, h2, h3]
  split_ifs with a b c <;>
    simp_all [hasSub_singleton]

/-- Claim C7 — confirmed.  A closed block whose body fails to parse
contributes zero calls (first conjunct, for every such body); on the
concrete stream containing an unterminated invoke, extraction over the full
text yields no calls, processing is total (no crash is possible in the
embedding), and the plain text before and after the block is still flushed
to the plain sink while the block itself is handed off as one unit. -/
theorem claim7_malformed_tolerance :
    (∀ body : Str, parseInvokes (body.length + 1) body = none → extractBlockCalls body = []) ∧
    extractFunctionCalls malformedText = [] ∧
    (runSegmenter malformedStream).plainOut = "BeforeAfter".data ∧
    (runSegmenter malformedStream).fnBlocksOut.length = 1 := by
  refine ⟨?_, by decide, by decide, by decide⟩
  intro body h
  simp [extractBlockCalls, h]

/-- Witness for C7 at the concrete malformed body. -/
theorem claim7_witness :
    extractBlockCalls "\n<invoke name=\"run_in_terminal\">\n".data = [] :=
  claim7_malformed_tolerance.1 "\n<invoke name=\"run_in_terminal\">\n".data (by decide)

/-- A name outside the dispatch table takes the final else of the
dispatcher's if/else chain and contributes nothing. -/
theorem dispatchCall_unknown (env : ToolEnv) (call : FunctionCall)
    (h : call.name ∉ knownToolNames) : dispatchCall env call = [] := by
  simp only [knownToolNames, List.mem_cons, List.not_mem_nil, or_false, not_or] at h
  obtain ⟨h1, h2, h3, h4, h5, h6, h7, h8⟩ := h
  simp [dispatchCall, h1, h2, h3, h4, h5, h6, h7, h8]

/-- Folding the dispatch loop over calls that are all unknown leaves the
accumulated result text unchanged. -/
theorem foldl_dispatch_unknown (env : ToolEnv) :
    ∀ (calls : List FunctionCall) (acc : Str),
      (∀ c ∈ calls, c.name ∉ knownToolNames) →
      calls.foldl (fun results call => results ++ dispatchCall env call) acc = acc := by
  intro calls
  induction calls with
  | nil => intro acc _; rfl
  | cons c cs ih =>
    intro acc h
    simp only [List.foldl_cons]
    rw [dispatchCall_unknown env c (h c (by simp)), List.append_nil]
    exact ih acc fun d hd => h d (by simp [hd])

/-- Claim C8 — confirmed.  A call whose name is not one of the eight
recognized tool names contributes no result block and raises nothing, and a
response whose extracted calls are all unknown produces the empty result
string. -/
theorem claim8_unknown_names :
    (∀ (env : ToolEnv) (call : FunctionCall),
       call.name ∉ knownToolNames → dispatchCall env call = []) ∧
    (∀ (env : ToolEnv) (text : Str),
       (∀ call ∈ extractFunctionCalls text, call.name ∉ knownToolNames) →
       processFunctionCalls env text = []) :=
  ⟨dispatchCall_unknown,
   fun env text h => foldl_dispatch_unknown env (extractFunctionCalls text) [] h⟩

/-- Witness for C8: a block containing only an unknown tool name yields the
empty result string. -/
theorem claim8_witness :
    processFunctionCalls trivialToolEnv unknownOnlyBlock = [] :=
  claim8_unknown_names.2 trivialToolEnv unknownOnlyBlock (by decide)

/-- The ids issued by a run of background starts from any registry state
are the consecutive integers beginning at the current counter, and the
counter advances by the number of starts. -/
theorem startMany_ids (cmds : List (Str × Str)) : ∀ r : Registry,
    (startMany r cmds).1 = List.range' r.nextProcessId cmds.length ∧
    (startMany r cmds).2.nextProcessId = r.nextProcessId + cmds.length := by
  induction cmds with
  | nil => intro r; simp [startMany, List.range']
  | cons p rest ih =>
    intro r
    obtain ⟨c, e⟩ := p
    constructor
    · show (startBackground r c e).1 :: (startMany (startBackground r c e).2 rest).1 = _
      rw [(ih _).1]
      simp [startBackground, List.range']
    · show (startMany (startBackground r c e).2 rest).2.nextProcessId = _
      rw [(ih _).2]
      simp [startBackground]
      omega

/-- Claim C6 — confirmed.  From a fresh `OllamaChat` (counter initialized
to 1), any sequence of background starts returns the ids `1, 2, …, n` in
order: consecutive, strictly increasing, no gaps, no id issued twice. -/
theorem claim6_id_monotonic (cmds : List (Str × Str)) :
    (startMany initialRegistry cmds).1 = List.range' 1 cmds.length ∧
    (startMany initialRegistry cmds).1.length = cmds.length ∧
    (∀ i, (h : i < (startMany initialRegistry cmds).1.length) →
       (startMany initialRegistry cmds).1.get ⟨i, h⟩ = i + 1) := by
  have h := startMany_ids cmds initialRegistry
  refine ⟨h.1, ?_, ?_⟩
  · rw [h.1]
    simp [List.length_range']
  · intro i hi
    rw [List.get_eq_getElem]
    simp only [h.1] at hi ⊢
    rw [List.getElem_range']
    have h1 : initialRegistry.nextProcessId = 1 := rfl
    omega

/-- Witness for C6: with two starts from a fresh registry the second id is
2. -/
theorem claim6_witness :
    (startMany initialRegistry
        [("sleep 5".data, "wait".data), ("ls".data, "list".data)]).1.get ⟨1, by decide⟩ = 2 := by
  have h := (claim6_id_monotonic
    [("sleep 5".data, "wait".data), ("ls".data, "list".data)]).2.2 1 (by decide)
  simpa using h

/-- `getParam` after a `setParam` on the same key sees the new value. -/
theorem getParam_setParam_self (m : List (Str × Str)) (k v : Str) :
    getParam (setParam m k v) k = some v := by
  induction m with
  | nil => simp [setParam, getParam]
  | cons p rest ih =>
    obtain ⟨k', v'⟩ := p
    by_cases h : k' = k
    · simp [setParam, getParam, h]
    · simp [setParam, getParam, h, ih]

/-- `setParam` on another key does not change a lookup. -/
theorem getParam_setParam_ne (m : List (Str × Str)) (k k' v : Str) (h : k' ≠ k) :
    getParam (setParam m k v) k' = getParam m k' := by
  induction m with
  | nil => simp [setParam, getParam, Ne.symm h]
  | cons p rest ih =>
    obtain ⟨k0, v0⟩ := p
    by_cases h0 : k0 = k
    · simp [setParam, getParam, h0, Ne.symm h]
    · by_cases h1 : k0 = k'
      · simp [setParam, getParam, h0, h1, h]
      · simp [setParam, getParam, h0, h1, ih]

/-- Running the parameter loop over `ps` from any accumulator: a lookup
returns the unescaped text of the document-order-last parameter with that
(truthy) name, falling back to the accumulator. -/
theorem getParam_buildParams_loop (n : Str) (hn : n ≠ []) :
    ∀ (ps : List RawParam) (m : List (Str × Str)),
      getParam (ps.foldl buildParamsStep m) n =
        (match ps.reverse.find? (fun p => decide (p.name = some n)) with
         | some p => some (unescapeXml p.text)
         | none => getParam m n) := by
  intro ps
  induction ps with
  | nil => intro m; rfl
  | cons p ps' ih =>
    intro m
    rw [List.foldl_cons, ih (buildParamsStep m p)]
    rw [List.reverse_cons, List.find?_append]
    rcases hfind : ps'.reverse.find? (fun p => decide (p.name = some n)) with _ | q
    · simp only [hfind, Option.or]
      rcases hna : p.name with _ | n'
      · have hpred : (fun p => decide (p.name = some n)) p = false := by simp [hna]
        simp [List.find?, hpred, buildParamsStep, hna]
      · by_cases heq : n' = n
        · subst heq
          have hpred : (fun p => decide (p.name = some n')) p = true := by simp [hna]
          simp only [List.find?, hpred]
          simp [buildParamsStep, hna, hn, getParam_setParam_self]
        · have hpred : (fun p => decide (p.name = some n)) p = false := by
            simp [hna, heq]
          simp only [List.find?, hpred]
          by_cases hne : n' = []
          · simp [buildParamsStep, hna, hne]
          · simp [buildParamsStep, hna, hne, getParam_setParam_ne _ _ _ _ (Ne.symm heq)]
    · simp [hfind, Option.or]

/-- Claim C10 — confirmed.  For any parameter list, a lookup in the built
mapping returns the unescaped value of the document-order-last parameter
with that name (earlier same-named values are silently overwritten), and on
a concrete block with a duplicated name the extractor returns exactly the
later value. -/
theorem claim10_last_param_wins :
    (∀ (ps : List RawParam) (n : Str), n ≠ [] →
       getParam (buildParams ps) n =
         (match ps.reverse.find? (fun p => decide (p.name = some n)) with
          | some p => some (unescapeXml p.text)
          | none => none)) ∧
    extractFunctionCalls dupParamBlock =
      [⟨"create_file".data, [("filePath".data, "b.txt".data)]⟩] := by
  constructor
  · intro ps n hn
    rw [buildParams, getParam_buildParams_loop n hn ps []]
    rcases ps.reverse.find? (fun p => decide (p.name = some n)) with _ | q <;> simp [getParam]
  · decide

/-- Witness for C10: with two same-named raw parameters, lookup returns the
second value. -/
theorem claim10_witness :
    getParam (buildParams [⟨some "k".data, "a".data⟩, ⟨some "k".data, "b".data⟩]) "k".data
      = some "b".data := by
  rw [claim10_last_param_wins.1 [⟨some "k".data, "a".data⟩, ⟨some "k".data, "b".data⟩]
    "k".data (by decide)]
  decide

/-! ## Entity round-trip (C4) -/

/-- The result of the fuelled replace does not depend on the fuel once it
covers the input length. -/
theorem replaceAllF_fuel (pat repl : Str) :
    ∀ (f₁ : Nat) (s : Str) (f₂ : Nat), s.length ≤ f₁ → s.length ≤ f₂ →
      replaceAllF pat repl f₁ s = replaceAllF pat repl f₂ s := by
  intro f₁
  induction f₁ with
  | zero =>
    intro s f₂ h1 _
    have hs : s = [] := List.eq_nil_of_length_eq_zero (Nat.le_zero.mp h1)
    subst hs
    cases f₂ <;> rfl
  | succ f ih =>
    intro s f₂ h1 h2
    cases s with
    | nil => cases f₂ <;> rfl
    | cons c rest =>
      cases f₂ with
      | zero => simp at h2
      | succ f₂' =>
        simp only [replaceAllF]
        by_cases hcond : pat ≠ [] ∧ pat.isPrefixOf (c :: rest) = true
        · rw [if_pos hcond, if_pos hcond]
          have hp : 1 ≤ pat.length := List.length_pos.mpr hcond.1
          have hd : ((c :: rest).drop pat.length).length ≤ f := by
            simp only [List.length_drop, List.length_cons]
            simp only [List.length_cons] at h1
            omega
          have hd2 : ((c :: rest).drop pat.length).length ≤ f₂' := by
            simp only [List.length_drop, List.length_cons]
            simp only [List.length_cons] at h2
            omega
          rw [ih _ _ hd hd2]
        · rw [if_neg hcond, if_neg hcond]
          have hr : rest.length ≤ f := by simp only [List.length_cons] at h1; omega
          have hr2 : rest.length ≤ f₂' := by simp only [List.length_cons] at h2; omega
          rw [ih _ _ hr hr2]

/-- When the pattern does not match at the head, the replace steps over one
character. -/
theorem replaceAll_cons_of_not_pfx (pat repl : Str) (c : Char) (s : Str)
    (h : ¬ pat.isPrefixOf (c :: s) = true) :
    replaceAll pat repl (c :: s) = c :: replaceAll pat repl s := by
  show replaceAllF pat repl (c :: s).length (c :: s) = _
  rw [List.length_cons]
  simp only [replaceAllF]
  rw [if_neg fun hc => h hc.2]
  rfl

/-- Stepping over one character whenever it differs from the pattern's
first character. -/
theorem replaceAll_cons_ne_head (pat repl : Str) (c : Char) (t : Str)
    (hne : pat.head? ≠ some c) :
    replaceAll pat repl (c :: t) = c :: replaceAll pat repl t := by
  cases pat with
  | nil =>
    show replaceAllF [] repl (c :: t).length (c :: t) = _
    rw [List.length_cons]
    simp only [replaceAllF]
    rw [if_neg fun hc => hc.1 rfl]
    rfl
  | cons p ps =>
    apply replaceAll_cons_of_not_pfx
    intro hc
    have hsplit : (p == c) = true ∧ ps.isPrefixOf t = true := by
      simpa [List.isPrefixOf] using hc
    have hpc : p = c := by simpa using hsplit.1
    exact hne (by simp [hpc])

/-- A match at the head is replaced and scanning resumes after it. -/
theorem replaceAll_pat_cons (pat repl t : Str) (hp : pat ≠ []) :
    replaceAll pat repl (pat ++ t) = repl ++ replaceAll pat repl t := by
  cases pat with
  | nil => exact absurd rfl hp
  | cons p ps =>
    show replaceAllF (p :: ps) repl ((p :: ps ++ t).length) (p :: ps ++ t) = _
    have hl : (p :: ps ++ t).length = (ps ++ t).length + 1 := by simp
    rw [hl]
    simp only [List.cons_append, replaceAllF]
    rw [if_pos ⟨hp, List.isPrefixOf_iff_prefix.mpr ⟨t, by simp⟩⟩]
    congr 1
    rw [show (p :: ps).length = ps.length + 1 from rfl, List.drop_succ_cons]
    have hd : List.drop ps.length (ps.append t) = t := List.drop_left ps t
    rw [hd]
    exact replaceAllF_fuel _ _ _ _ _ (by simp only [List.length_append]; omega) (le_refl _)

/-- Unpack `cannotStartIn` over a cons. -/
theorem cannotStartIn_cons (pat : Str) (c : Char) (w : Str)
    (h : cannotStartIn pat (c :: w) = true) :
    (¬ pat.isPrefixOf (c :: w) = true ∧ ¬ (c :: w).isPrefixOf pat = true) ∧
      cannotStartIn pat w = true := by
  unfold cannotStartIn at h ⊢
  rw [show (c :: w).tails = (c :: w) :: w.tails by simp [List.tails]] at h
  rw [List.all_cons, Bool.and_eq_true] at h
  obtain ⟨hh, ht⟩ := h
  refine ⟨?_, ht⟩
  simp only [List.isEmpty_cons, Bool.false_or, Bool.and_eq_true, Bool.not_eq_true'] at hh
  exact ⟨by simp [hh.1], by simp [hh.2]⟩

/-- A prefix of an append is a prefix of the left part, or contains it. -/
theorem pfx_of_append (l w t : Str) (h : l <+: w ++ t) : l <+: w ∨ w <+: l := by
  obtain ⟨r, hr⟩ := h
  rcases List.append_eq_append_iff.mp hr with ⟨a, ha, _⟩ | ⟨a, ha, _⟩
  · exact Or.inl ⟨a, ha.symm⟩
  · exact Or.inr ⟨a, ha.symm⟩

/-- A codeword in which the pattern cannot start passes through the replace
unchanged, whatever follows it. -/
theorem replaceAll_codeword (pat repl : Str) : ∀ w t : Str,
    cannotStartIn pat w = true →
    replaceAll pat repl (w ++ t) = w ++ replaceAll pat repl t := by
  intro w
  induction w with
  | nil => intro t _; simp
  | cons c w' ih =>
    intro t hw
    obtain ⟨⟨hh1, hh2⟩, htail⟩ := cannotStartIn_cons pat c w' hw
    have hnot : ¬ pat.isPrefixOf (c :: (w' ++ t)) = true := by
      intro hc
      rcases pfx_of_append pat (c :: w') t
          (by simpa using List.isPrefixOf_iff_prefix.mp hc) with hx | hx
      · exact hh1 (List.isPrefixOf_iff_prefix.mpr hx)
      · exact hh2 (List.isPrefixOf_iff_prefix.mpr hx)
    rw [List.cons_append, replaceAll_cons_of_not_pfx pat repl c (w' ++ t) hnot, ih t htail]
    simp

/-- Pass 1: replacing `&lt;` in an escaped string uncovers exactly the
literal `<` characters. -/
theorem unescape_stage1 (s : Str) :
    replaceAll "&lt;".data "<".data (mapConcat escChar s) = mapConcat escChar1 s := by
  induction s with
  | nil => rfl
  | cons c s ih =>
    simp only [mapConcat]
    by_cases h1 : c = '&'
    · subst h1
      rw [show escChar '&' = "&amp;".data from by decide,
        replaceAll_codeword _ _ _ _ (by decide), ih,
        show escChar1 '&' = "&amp;".data from by decide]
    · by_cases h2 : c = '<'
      · subst h2
        rw [show escChar '<' = "&lt;".data from by decide,
          replaceAll_pat_cons _ _ _ (by decide), ih,
          show escChar1 '<' = "<".data from by decide]
      · by_cases h3 : c = '>'
        · subst h3
          rw [show escChar '>' = "&gt;".data from by decide,
            replaceAll_codeword _ _ _ _ (by decide), ih,
            show escChar1 '>' = "&gt;".data from by decide]
        · by_cases h4 : c = quoteChar
          · subst h4
            rw [show escChar quoteChar = "&quot;".data from by decide,
              replaceAll_codeword _ _ _ _ (by decide), ih,
              show escChar1 quoteChar = "&quot;".data from by decide]
          · by_cases h5 : c = aposChar
            · subst h5
              rw [show escChar aposChar = "&apos;".data from by decide,
                replaceAll_codeword _ _ _ _ (by decide), ih,
                show escChar1 aposChar = "&apos;".data from by decide]
            · rw [show escChar c = [c] from by simp [escChar, h1, h2, h3, h4, h5],
                show escChar1 c = [c] from by simp [escChar1, h1, h3, h4, h5],
                show ([c] : Str) ++ mapConcat escChar s = c :: mapConcat escChar s from rfl,
                show ([c] : Str) ++ mapConcat escChar1 s = c :: mapConcat escChar1 s from rfl,
                replaceAll_cons_ne_head _ _ _ _
                  (by rw [show ("&lt;".data : Str).head? = some '&' from by decide]
                      exact fun hx => h1 (Option.some.inj hx).symm), ih]

/-- Pass 2: replacing `&gt;` next uncovers the literal `>` characters. -/
theorem unescape_stage2 (s : Str) :
    replaceAll "&gt;".data ">".data (mapConcat escChar1 s) = mapConcat escChar2 s := by
  induction s with
  | nil => rfl
  | cons c s ih =>
    simp only [mapConcat]
    by_cases h1 : c = '&'
    · subst h1
      rw [show escChar1 '&' = "&amp;".data from by decide,
        replaceAll_codeword _ _ _ _ (by decide), ih,
        show escChar2 '&' = "&amp;".data from by decide]
    · by_cases h3 : c = '>'
      · subst h3
        rw [show escChar1 '>' = "&gt;".data from by decide,
          replaceAll_pat_cons _ _ _ (by decide), ih,
          show escChar2 '>' = ">".data from by decide]
      · by_cases h4 : c = quoteChar
        · subst h4
          rw [show escChar1 quoteChar = "&quot;".data from by decide,
            replaceAll_codeword _ _ _ _ (by decide), ih,
            show escChar2 quoteChar = "&quot;".data from by decide]
        · by_cases h5 : c = aposChar
          · subst h5
            rw [show escChar1 aposChar = "&apos;".data from by decide,
              replaceAll_codeword _ _ _ _ (by decide), ih,
              show escChar2 aposChar = "&apos;".data from by decide]
          · rw [show escChar1 c = [c] from by simp [escChar1, h1, h3, h4, h5],
              show escChar2 c = [c] from by simp [escChar2, h1, h4, h5],
              show ([c] : Str) ++ mapConcat escChar1 s = c :: mapConcat escChar1 s from rfl,
              show ([c] : Str) ++ mapConcat escChar2 s = c :: mapConcat escChar2 s from rfl,
              replaceAll_cons_ne_head _ _ _ _
                (by rw [show ("&gt;".data : Str).head? = some '&' from by decide]
                    exact fun hx => h1 (Option.some.inj hx).symm), ih]

/-- Pass 3: replacing `&quot;` uncovers the literal double quotes. -/
theorem unescape_stage3 (s : Str) :
    replaceAll "&quot;".data [quoteChar] (mapConcat escChar2 s) = mapConcat escChar3 s := by
  induction s with
  | nil => rfl
  | cons c s ih =>
    simp only [mapConcat]
    by_cases h1 : c = '&'
    · subst h1
      rw [show escChar2 '&' = "&amp;".data from by decide,
        replaceAll_codeword _ _ _ _ (by decide), ih,
        show escChar3 '&' = "&amp;".data from by decide]
    · by_cases h4 : c = quoteChar
      · subst h4
        rw [show escChar2 quoteChar = "&quot;".data from by decide,
          replaceAll_pat_cons _ _ _ (by decide), ih,
          show escChar3 quoteChar = [quoteChar] from by decide]
      · by_cases h5 : c = aposChar
        · subst h5
          rw [show escChar2 aposChar = "&apos;".data from by decide,
            replaceAll_codeword _ _ _ _ (by decide), ih,
            show escChar3 aposChar = "&apos;".data from by decide]
        · rw [show escChar2 c = [c] from by simp [escChar2, h1, h4, h5],
            show escChar3 c = [c] from by simp [escChar3, h1, h5],
            show ([c] : Str) ++ mapConcat escChar2 s = c :: mapConcat escChar2 s from rfl,
            show ([c] : Str) ++ mapConcat escChar3 s = c :: mapConcat escChar3 s from rfl,
            replaceAll_cons_ne_head _ _ _ _
              (by rw [show ("&quot;".data : Str).head? = some '&' from by decide]
                  exact fun hx => h1 (Option.some.inj hx).symm), ih]

/-- Pass 4: replacing `&apos;` uncovers the literal apostrophes. -/
theorem unescape_stage4 (s : Str) :
    replaceAll "&apos;".data [aposChar] (mapConcat escChar3 s) = mapConcat escChar4 s := by
  induction s with
  | nil => rfl
  | cons c s ih =>
    simp only [mapConcat]
    by_cases h1 : c = '&'
    · subst h1
      rw [show escChar3 '&' = "&amp;".data from by decide,
        replaceAll_codeword _ _ _ _ (by decide), ih,
        show escChar4 '&' = "&amp;".data from by decide]
    · by_cases h5 : c = aposChar
      · subst h5
        rw [show escChar3 aposChar = "&apos;".data from by decide,
          replaceAll_pat_cons _ _ _ (by decide), ih,
          show escChar4 aposChar = [aposChar] from by decide]
      · rw [show escChar3 c = [c] from by simp [escChar3, h1, h5],
          show escChar4 c = [c] from by simp [escChar4, h1],
          show ([c] : Str) ++ mapConcat escChar3 s = c :: mapConcat escChar3 s from rfl,
          show ([c] : Str) ++ mapConcat escChar4 s = c :: mapConcat escChar4 s from rfl,
          replaceAll_cons_ne_head _ _ _ _
            (by rw [show ("&apos;".data : Str).head? = some '&' from by decide]
                exact fun hx => h1 (Option.some.inj hx).symm), ih]

/-- Pass 5: the alternative apostrophe entity `&#39;` never occurs in an
escaped string, so this pass changes nothing. -/
theorem unescape_stage5 (s : Str) :
    replaceAll "&#39;".data [aposChar] (mapConcat escChar4 s) = mapConcat escChar4 s := by
  induction s with
  | nil => rfl
  | cons c s ih =>
    simp only [mapConcat]
    by_cases h1 : c = '&'
    · subst h1
      rw [show escChar4 '&' = "&amp;".data from by decide,
        replaceAll_codeword _ _ _ _ (by decide), ih]
    · rw [show escChar4 c = [c] from by simp [escChar4, h1],
        show ([c] : Str) ++ mapConcat escChar4 s = c :: mapConcat escChar4 s from rfl,
        replaceAll_cons_ne_head _ _ _ _
          (by rw [show ("&#39;".data : Str).head? = some '&' from by decide]
              exact fun hx => h1 (Option.some.inj hx).symm), ih]

/-- Pass 6: replacing `&amp;` last restores the original string. -/
theorem unescape_stage6 (s : Str) :
    replaceAll "&amp;".data "&".data (mapConcat escChar4 s) = s := by
  induction s with
  | nil => rfl
  | cons c s ih =>
    simp only [mapConcat]
    by_cases h1 : c = '&'
    · subst h1
      rw [show escChar4 '&' = "&amp;".data from by decide,
        replaceAll_pat_cons _ _ _ (by decide), ih]
      rfl
    · rw [show escChar4 c = [c] from by simp [escChar4, h1],
        show ([c] : Str) ++ mapConcat escChar4 s = c :: mapConcat escChar4 s from rfl,
        replaceAll_cons_ne_head _ _ _ _
          (by rw [show ("&amp;".data : Str).head? = some '&' from by decide]
              exact fun hx => h1 (Option.some.inj hx).symm), ih]

/-- Claim C4 — confirmed.  For every string, unescaping the reference XML
escape with the source's `unescapeXml` returns the string unchanged:
`unescape(escape(s)) == s`. -/
theorem claim4_roundtrip (s : Str) : unescapeXml (escapeXml s) = s := by
  unfold unescapeXml escapeXml
  rw [unescape_stage1, unescape_stage2, unescape_stage3, unescape_stage4,
    unescape_stage5, unescape_stage6]
